import Mathlib

/-!
Shallow embedding of `src/cluster/ssh_manager.py` (LinuxAgent).

The module manages a registry of servers (`SSHManager.servers`, a dict keyed
by hostname), a group index (`SSHManager.groups`, dict group → hostname list),
and a pool of SSH connections (`SSHManager.connections`, dict keyed by
hostname).  Python dicts are embedded as association lists with Python's
update semantics (replace in place, else append); the network (paramiko) is
abstracted by a `World` oracle that decides whether a connect succeeds,
whether a transport is still alive, and what a remote command returns.
`SSHConnection.last_used` and the periodic reaper thread's timing are not
modelled (no claim depends on wall-clock time); the reaper's close is the
same `disconnect` as everywhere else.
-/

namespace LinuxAgent

/-- Lookup in an association list: first entry whose key matches (Python `d[k]` / `d.get(k)`). -/
def dlookup {β : Type} : List (String × β) → String → Option β
  | [], _ => none
  | (k', v) :: rest, k => if k' = k then some v else dlookup rest k

/-- Key membership test (Python `k in d`). -/
def dcontains {β : Type} (m : List (String × β)) (k : String) : Bool :=
  (dlookup m k).isSome

/-- Python `d[k] = v`: replace the value of an existing key in place, else append. -/
def dinsert {β : Type} : List (String × β) → String → β → List (String × β)
  | [], k, v => [(k, v)]
  | (k', v') :: rest, k, v =>
    if k' = k then (k, v) :: rest else (k', v') :: dinsert rest k v

/-- Python `del d[k]` (keys are unique in states built by the manager's operations). -/
def dremove {β : Type} : List (String × β) → String → List (String × β)
  | [], _ => []
  | (k', v) :: rest, k =>
    if k' = k then dremove rest k else (k', v) :: dremove rest k

/-- Python `list(d.keys())`. -/
def dkeys {β : Type} (m : List (String × β)) : List String :=
  m.map Prod.fst

/-- Python `list(d.values())`. -/
def dvalues {β : Type} (m : List (String × β)) : List β :=
  m.map Prod.snd

/-- Embedding of the `ServerInfo` dataclass (lines 24-43). -/
structure ServerInfo where
  hostname : String
  username : String
  port : Nat := 22
  password : Option String := none
  private_key_path : Option String := none
  private_key_passphrase : Option String := none
  group : String := "default"
  description : String := ""
  enabled : Bool := true
deriving Repr, DecidableEq

/-- Dictionary values occurring in `asdict(ServerInfo)`. -/
inductive DVal where
  | s (v : String)
  | n (v : Nat)
  | b (v : Bool)
  | os (v : Option String)
deriving Repr, DecidableEq

/-- Python `dataclasses.asdict`: every field, in declaration order. -/
def ServerInfo.asdict (si : ServerInfo) : List (String × DVal) :=
  [("hostname", .s si.hostname),
   ("username", .s si.username),
   ("port", .n si.port),
   ("password", .os si.password),
   ("private_key_path", .os si.private_key_path),
   ("private_key_passphrase", .os si.private_key_passphrase),
   ("group", .s si.group),
   ("description", .s si.description),
   ("enabled", .b si.enabled)]

/-- `ServerInfo.to_dict` (lines 37-43): `asdict` with the two secret keys popped. -/
def ServerInfo.to_dict (si : ServerInfo) : List (String × DVal) :=
  (si.asdict.filter (fun p => p.1 ≠ "password")).filter
    (fun p => p.1 ≠ "private_key_passphrase")

/-- Embedding of the `CommandResult` dataclass (lines 46-59).
`execution_time` is an abstract tick count instead of a float. -/
structure CommandResult where
  hostname : String
  command : String
  stdout : String
  stderr : String
  return_code : Int
  execution_time : Nat
  error : Option String := none
deriving Repr, DecidableEq

/-- Oracle for everything that crosses the network in the Python code:
whether loading the private key succeeds, whether `client.connect` succeeds,
whether a cached transport is still active, and the outcome of
`exec_command` on a host (`.ok (stdout, stderr, exit_status)` or
`.error msg` for a transport-level exception). -/
structure World where
  keyLoadOk : ServerInfo → Bool
  connectOk : ServerInfo → Bool
  alive : String → Bool
  execResult : String → String → Except String (String × String × Int)
  elapsed : String → String → Nat

/-- Embedding of `SSHConnection` state: the paramiko client handle is reduced
to its presence (`hasClient`, Python `self.client is not None`). -/
structure SSHConnection where
  server_info : ServerInfo
  hasClient : Bool := false
  connected : Bool := false
deriving Repr, DecidableEq

/-- `SSHConnection.connect` (lines 86-146).  A client object is created first;
the key branch returns `False` early (client kept) when the key cannot be
loaded, the no-auth branch returns `False` early (client kept), and an
exception from `client.connect` closes the client.  paramiko is assumed
installed (otherwise every call raises ImportError and nothing is modelled). -/
def SSHConnection.connect (w : World) (c : SSHConnection) : Bool × SSHConnection :=
  let c := { c with hasClient := true }
  if c.server_info.private_key_path.isSome then
    if ¬ w.keyLoadOk c.server_info then (false, c)
    else if w.connectOk c.server_info then (true, { c with connected := true })
    else (false, { c with hasClient := false })
  else if c.server_info.password.isSome then
    if w.connectOk c.server_info then (true, { c with connected := true })
    else (false, { c with hasClient := false })
  else (false, c)

/-- `SSHConnection.disconnect` (lines 148-154): close the client if present,
drop it, mark disconnected. -/
def SSHConnection.disconnect (c : SSHConnection) : SSHConnection :=
  { c with hasClient := false, connected := false }

/-- `SSHConnection.is_alive` (lines 205-214): connected, client present, and
the transport reports active. -/
def SSHConnection.is_alive (w : World) (c : SSHConnection) : Bool :=
  c.connected && c.hasClient && w.alive c.server_info.hostname

/-- `SSHConnection.execute_command` (lines 156-203).  Not connected ⇒ synthetic
result with error `"SSH连接未建立"`; a transport exception is caught and put in
`error` with return code −1; a normal completion reports the remote exit
status with `error = none`. -/
def SSHConnection.execute_command (w : World) (c : SSHConnection)
    (command : String) : CommandResult :=
  if ¬ (c.connected && c.hasClient) then
    { hostname := c.server_info.hostname, command := command, stdout := "",
      stderr := "", return_code := -1, execution_time := 0,
      error := some "SSH连接未建立" }
  else
    match w.execResult c.server_info.hostname command with
    | .ok (out, err, code) =>
      { hostname := c.server_info.hostname, command := command, stdout := out,
        stderr := err, return_code := code,
        execution_time := w.elapsed c.server_info.hostname command,
        error := none }
    | .error e =>
      { hostname := c.server_info.hostname, command := command, stdout := "",
        stderr := "", return_code := -1,
        execution_time := w.elapsed c.server_info.hostname command,
        error := some e }

/-- Embedding of `SSHManager` mutable state (lines 220-239).  The thread pool,
the logger and the lock object itself are not data; the reaper thread is
modelled by its effect (`disconnect` + removal), not its schedule. -/
structure SSHManager where
  max_connections : Nat := 10
  connection_timeout : Nat := 300
  servers : List (String × ServerInfo) := []
  connections : List (String × SSHConnection) := []
  groups : List (String × List String) := []
deriving Repr, DecidableEq

/-- A freshly initialised manager. -/
def initManager : SSHManager := {}

/-- The group-index update of `add_server` (lines 246-251): create the
group's list if absent, then append the hostname if not already present. -/
def addGroups (groups : List (String × List String)) (si : ServerInfo) :
    List (String × List String) :=
  let groups0 :=
    if dcontains groups si.group then groups
    else dinsert groups si.group []
  let glist := (dlookup groups0 si.group).getD []
  if si.hostname ∈ glist then groups0
  else dinsert groups0 si.group (glist ++ [si.hostname])

/-- `SSHManager.add_server` (lines 241-253): store the record under its
hostname and update the group index.  No validation of any kind is
performed. -/
def SSHManager.add_server (st : SSHManager) (si : ServerInfo) : SSHManager :=
  { st with servers := dinsert st.servers si.hostname si,
            groups := addGroups st.groups si }

/-- The group-index update of `remove_server` (lines 266-273): remove the
hostname from its record's group list, deleting the group when the list
empties. -/
def removeGroups (groups : List (String × List String)) (si : ServerInfo)
    (hostname : String) : List (String × List String) :=
  match dlookup groups si.group with
  | none => groups
  | some l =>
    let l' := l.erase hostname
    if l' = [] then dremove groups si.group
    else dinsert groups si.group l'

/-- `SSHManager.remove_server` (lines 255-276): no-op on unknown hostname;
otherwise disconnect and drop any pooled connection, remove the hostname from
the group index, and delete the record. -/
def SSHManager.remove_server (st : SSHManager) (hostname : String) : SSHManager :=
  match dlookup st.servers hostname with
  | none => st
  | some si =>
    { st with servers := dremove st.servers hostname,
              connections := dremove st.connections hostname,
              groups := removeGroups st.groups si hostname }

/-- `SSHManager.get_server` (lines 278-280). -/
def SSHManager.get_server (st : SSHManager) (hostname : String) : Option ServerInfo :=
  dlookup st.servers hostname

/-- `SSHManager.list_servers` (lines 282-288): all records, or the records of
one group's hostnames that are still registered. -/
def SSHManager.list_servers (st : SSHManager) (group : Option String) : List ServerInfo :=
  match group with
  | none => dvalues st.servers
  | some g => ((dlookup st.groups g).getD []).filterMap (fun hn => dlookup st.servers hn)

/-- `SSHManager.list_groups` (lines 290-292). -/
def SSHManager.list_groups (st : SSHManager) : List String :=
  dkeys st.groups

/-- `SSHManager.get_group_servers` (lines 294-296). -/
def SSHManager.get_group_servers (st : SSHManager) (group : String) : List String :=
  (dlookup st.groups group).getD []

/-- Outcome of the connection-creation tail of `_get_connection`
(lines 314-324): `none` when the server is disabled or `connect` fails. -/
def newConnection (w : World) (si : ServerInfo) : Option SSHConnection :=
  if si.enabled then
    let p := SSHConnection.connect w { server_info := si }
    if p.1 then some p.2 else none
  else none

/-- The connection-creation tail of `_get_connection`, with its pool insert. -/
def tryCreate (st : SSHManager) (w : World) (hostname : String) (si : ServerInfo) :
    Option SSHConnection × SSHManager :=
  match newConnection w si with
  | some c => (some c, { st with connections := dinsert st.connections hostname c })
  | none => (none, st)

/-- `SSHManager._get_connection` (lines 298-324): unknown host ⇒ `none`;
a live pooled connection is returned as is; a dead pooled connection is
disconnected and evicted, then a fresh connection is attempted. -/
def SSHManager.getConnection (st : SSHManager) (w : World) (hostname : String) :
    Option SSHConnection × SSHManager :=
  match dlookup st.servers hostname with
  | none => (none, st)
  | some si =>
    match dlookup st.connections hostname with
    | some conn =>
      if conn.is_alive w then (some conn, st)
      else tryCreate { st with connections := dremove st.connections hostname } w hostname si
    | none => tryCreate st w hostname si

/-- The synthetic result `execute_command` returns when no connection is
available (lines 354-363). -/
def noConnResult (hostname command : String) : CommandResult :=
  { hostname := hostname, command := command, stdout := "", stderr := "",
    return_code := -1, execution_time := 0, error := some "无法建立SSH连接" }

/-- `SSHManager.execute_command` (lines 351-365): resolve a connection and run
the command on it, or synthesize the −1/error result. -/
def SSHManager.execute_command (st : SSHManager) (w : World)
    (hostname command : String) : CommandResult × SSHManager :=
  match st.getConnection w hostname with
  | (none, st') => (noConnResult hostname command, st')
  | (some conn, st') => (conn.execute_command w command, st')

/-- One step of the result-collection loop of `execute_command_parallel`. -/
def parStep (w : World) (command : String)
    (acc : List (String × CommandResult) × SSHManager) (h : String) :
    List (String × CommandResult) × SSHManager :=
  let p := SSHManager.execute_command acc.2 w h command
  (dinsert acc.1 h p.1, p.2)

/-- The submission condition of `execute_command_parallel` (line 375): a task
is created only for a hostname that is registered AND enabled. -/
def selectable (st : SSHManager) (h : String) : Bool :=
  match dlookup st.servers h with
  | some si => si.enabled
  | none => false

/-- `SSHManager.execute_command_parallel` (lines 367-396): tasks are submitted
only for `selectable` hostnames; results are collected into a map keyed by
hostname.  The thread interleaving is sequentialised here; per-host
independence is proved, not assumed (see the C1 theorem).  The task-boundary
`except` branch (lines 385-394) is unreachable in the embedding because the
embedded `execute_command` is total. -/
def SSHManager.execute_command_parallel (st : SSHManager) (w : World)
    (hostnames : List String) (command : String) :
    List (String × CommandResult) × SSHManager :=
  (hostnames.filter (selectable st)).foldl (parStep w command) ([], st)

/-- `SSHManager.close_all_connections` (lines 478-486): disconnect every
pooled connection and clear the pool (the disconnected objects are no longer
referenced by the manager). -/
def SSHManager.close_all_connections (st : SSHManager) : SSHManager :=
  { st with connections := [] }

/-- A lock-scope event inside `_get_connection`: the mutex acquire/release of
the `with self._lock:` block and the call to `SSHConnection.connect`. -/
inductive PoolEvent where
  | acquire
  | release
  | connectCall (hostname : String)
deriving Repr, DecidableEq

/-- Whether a pool event is the blocking `connect()` call. -/
def isConnectCall : PoolEvent → Bool
  | .connectCall _ => true
  | _ => false

/-- Number of locks held after a prefix of events (acquires minus releases). -/
def lockDepth (tr : List PoolEvent) : Int :=
  tr.foldl (fun d e => match e with
    | .acquire => d + 1
    | .release => d - 1
    | .connectCall _ => d) 0

/-- The sequence of lock-scope events produced by one call to
`_get_connection` (lines 298-324): the unknown-host early return happens
before the lock; everything else — cache lookup, eviction, the enabled check
AND the `connect()` call — happens between the acquire (line 303) and the
release at the end of the `with` block. -/
def getConnectionTrace (st : SSHManager) (w : World) (hostname : String) :
    List PoolEvent :=
  match dlookup st.servers hostname with
  | none => []
  | some si =>
    let creation : List PoolEvent :=
      if si.enabled then [.connectCall hostname] else []
    match dlookup st.connections hostname with
    | some conn =>
      if conn.is_alive w then [.acquire, .release]
      else [.acquire] ++ creation ++ [.release]
    | none => [.acquire] ++ creation ++ [.release]

/-- The property the spec asserts of `_get_connection`: every `connect()` call
happens with no lock held. -/
def connectOutsideLock (tr : List PoolEvent) : Bool :=
  (List.range tr.length).all fun i =>
    !(isConnectCall (tr.getD i .release)) || (lockDepth (tr.take i) == 0)

/-! ### Association-list lemmas -/

theorem dlookup_dinsert_self {β : Type} (m : List (String × β)) (k : String) (v : β) :
    dlookup (dinsert m k v) k = some v := by
  induction m with
  | nil => simp [dinsert, dlookup]
  | cons p rest ih =>
    obtain ⟨a, b⟩ := p
    by_cases hk : a = k
    · simp [dinsert, dlookup, hk]
    · simp [dinsert, dlookup, hk, ih]

theorem dlookup_dinsert_ne {β : Type} (m : List (String × β)) (k k' : String) (v : β)
    (hne : k' ≠ k) : dlookup (dinsert m k v) k' = dlookup m k' := by
  induction m with
  | nil => simp [dinsert, dlookup, Ne.symm hne]
  | cons p rest ih =>
    obtain ⟨a, b⟩ := p
    by_cases hk : a = k
    · simp [dinsert, dlookup, hk, Ne.symm hne]
    · simp [dinsert, dlookup, hk, ih]

theorem dlookup_dremove_self {β : Type} (m : List (String × β)) (k : String) :
    dlookup (dremove m k) k = none := by
  induction m with
  | nil => simp [dremove, dlookup]
  | cons p rest ih =>
    obtain ⟨a, b⟩ := p
    by_cases hk : a = k
    · simp [dremove, dlookup, hk, ih]
    · simp [dremove, dlookup, hk, ih]

theorem dlookup_dremove_ne {β : Type} (m : List (String × β)) (k k' : String)
    (hne : k' ≠ k) : dlookup (dremove m k) k' = dlookup m k' := by
  induction m with
  | nil => simp [dremove, dlookup]
  | cons p rest ih =>
    obtain ⟨a, b⟩ := p
    by_cases hk : a = k
    · simp [dremove, dlookup, hk, Ne.symm hne, ih]
    · simp [dremove, dlookup, hk, ih]

theorem mem_dkeys_dremove {β : Type} (m : List (String × β)) (k : String) :
    k ∉ dkeys (dremove m k) := by
  induction m with
  | nil => simp [dremove, dkeys]
  | cons p rest ih =>
    obtain ⟨a, b⟩ := p
    by_cases hk : a = k
    · simp [dremove, dkeys, hk] at ih ⊢
      exact ih
    · simp [dremove, dkeys, hk] at ih ⊢
      exact ⟨fun h => hk h.symm, ih⟩

theorem dlookup_mem {β : Type} {m : List (String × β)} {k : String} {v : β}
    (h : dlookup m k = some v) : (k, v) ∈ m := by
  induction m with
  | nil => simp [dlookup] at h
  | cons p rest ih =>
    obtain ⟨a, b⟩ := p
    by_cases hk : a = k
    · simp [dlookup, hk] at h
      subst hk
      subst h
      exact List.mem_cons_self _ _
    · simp [dlookup, hk] at h
      exact List.mem_cons_of_mem _ (ih h)

/-! ### Concrete worlds and records used by witnesses and counterexamples -/

/-- Number of authentication methods configured on a record. -/
def authMethodCount (si : ServerInfo) : Nat :=
  (if si.password.isSome then 1 else 0) +
    (if si.private_key_path.isSome then 1 else 0)

/-- A world where every connect succeeds, every transport stays alive and
every command exits 0. -/
def wOk : World :=
  { keyLoadOk := fun _ => true, connectOk := fun _ => true,
    alive := fun _ => true, execResult := fun _ _ => .ok ("out", "", 0),
    elapsed := fun _ _ => 0 }

/-- A world whose command executions succeed with exit status 7. -/
def wExec : World :=
  { keyLoadOk := fun _ => true, connectOk := fun _ => true,
    alive := fun _ => true, execResult := fun _ _ => .ok ("o", "e", 7),
    elapsed := fun _ _ => 3 }

/-- A world whose command executions raise a transport exception. -/
def wErr : World :=
  { keyLoadOk := fun _ => true, connectOk := fun _ => true,
    alive := fun _ => true, execResult := fun _ _ => .error "boom",
    elapsed := fun _ _ => 3 }

/-- A password-authenticated test record. -/
def siPw : ServerInfo := { hostname := "h1", username := "u", password := some "p" }

/-- A record with no authentication method at all. -/
def siNoAuth : ServerInfo := { hostname := "na", username := "u" }

/-- A live connection to `siPw`. -/
def cLive : SSHConnection := { server_info := siPw, hasClient := true, connected := true }

/-- A connection to `siPw` that was never established. -/
def cDead : SSHConnection := { server_info := siPw }

/-- A value is among the stored values after inserting it. -/
theorem mem_dvalues_dinsert {β : Type} (m : List (String × β)) (k : String) (v : β) :
    v ∈ dvalues (dinsert m k v) := by
  induction m with
  | nil => simp [dinsert, dvalues]
  | cons p rest ih =>
    obtain ⟨a, b⟩ := p
    by_cases hk : a = k
    · simp [dinsert, dvalues, hk]
    · simp only [dinsert, hk, if_false, dvalues, List.map_cons]
      exact List.mem_cons_of_mem _ ih

/-! ### Claim theorems -/

/-- C10: `ServerInfo.to_dict` never exposes secrets: the returned dictionary
has no `password` and no `private_key_passphrase` key, and two records that
differ only in those two fields produce equal dictionaries. -/
theorem to_dict_hides_secrets (si : ServerInfo) (p q : Option String) :
    "password" ∉ (si.to_dict).map Prod.fst ∧
    "private_key_passphrase" ∉ (si.to_dict).map Prod.fst ∧
    si.to_dict = ({ si with password := p, private_key_passphrase := q } : ServerInfo).to_dict := by
  refine ⟨?_, ?_, rfl⟩ <;> simp [ServerInfo.to_dict, ServerInfo.asdict]

/-- C9: transport close is idempotent: disconnecting an already-disconnected
connection is a no-op that leaves it disconnected, and `close_all_connections`
applied twice equals applying it once. -/
theorem disconnect_idempotent (c : SSHConnection) (st : SSHManager) :
    c.disconnect.disconnect = c.disconnect ∧
    c.disconnect.connected = false ∧
    c.disconnect.hasClient = false ∧
    st.close_all_connections.close_all_connections = st.close_all_connections := by
  exact ⟨rfl, rfl, rfl, rfl⟩

/-- C7: for every record with exactly one authentication method configured,
`add_server` followed by `get_server` on its hostname returns the record
unchanged. -/
theorem add_get_roundtrip (st : SSHManager) (si : ServerInfo)
    (_hauth : authMethodCount si = 1) :
    (st.add_server si).get_server si.hostname = some si := by
  simp [SSHManager.add_server, SSHManager.get_server, dlookup_dinsert_self]

/-- Witness for C7 at a concrete password-authenticated record. -/
theorem add_get_roundtrip_witness :
    authMethodCount siPw = 1 ∧
    (initManager.add_server siPw).get_server siPw.hostname = some siPw := by
  exact ⟨by decide, add_get_roundtrip initManager siPw (by decide)⟩

/-- C2 counterexample: a record with zero authentication methods is NOT
rejected by `add_server` — no error of any kind is raised (the embedded
`add_server` is a total function into manager states, mirroring the Python
body, which contains no raise) and the record IS visible in subsequent
`get_server` and `list_servers` results. -/
theorem add_server_no_auth_not_rejected :
    siNoAuth.password = none ∧ siNoAuth.private_key_path = none ∧
    (initManager.add_server siNoAuth).get_server "na" = some siNoAuth ∧
    siNoAuth ∈ (initManager.add_server siNoAuth).list_servers none := by
  refine ⟨rfl, rfl, rfl, ?_⟩
  exact mem_dvalues_dinsert _ _ _

/-- C2 amended: `add_server` performs no authentication validation and raises
nothing; a record with neither password nor private-key path is stored and
appears in subsequent `get_server`/`list_servers` results, and its missing
credentials surface only later, at connect time, where
`SSHConnection.connect` fails for every possible network behaviour. -/
theorem add_server_accepts_no_auth (st : SSHManager) (si : ServerInfo)
    (hp : si.password = none) (hk : si.private_key_path = none) :
    (st.add_server si).get_server si.hostname = some si ∧
    si ∈ (st.add_server si).list_servers none ∧
    (∀ w : World, (SSHConnection.connect w { server_info := si }).1 = false) := by
  refine ⟨?_, ?_, ?_⟩
  · simp [SSHManager.add_server, SSHManager.get_server, dlookup_dinsert_self]
  · simp only [SSHManager.add_server, SSHManager.list_servers]
    exact mem_dvalues_dinsert _ _ _
  · intro w
    simp [SSHConnection.connect, hp, hk]

/-- Witness for C2's amended theorem at the concrete no-auth record. -/
theorem add_server_accepts_no_auth_witness :
    siNoAuth.password = none ∧ siNoAuth.private_key_path = none ∧
    (initManager.add_server siNoAuth).get_server siNoAuth.hostname = some siNoAuth ∧
    (SSHConnection.connect wOk { server_info := siNoAuth }).1 = false := by
  have h := add_server_accepts_no_auth initManager siNoAuth rfl rfl
  exact ⟨rfl, rfl, h.1, h.2.2 wOk⟩

/-- C5: `SSHConnection.execute_command` never raises: when the connection is
not established it returns the synthetic "SSH连接未建立" result; a transport
exception during execution is caught and returned as a result whose `error`
carries the exception text and whose return code is −1; a command that merely
exits nonzero yields that exit status with `error` unset. -/
theorem conn_execute_never_raises (w : World) (c : SSHConnection) (cmd : String) :
    (¬ (c.connected = true ∧ c.hasClient = true) →
      (c.execute_command w cmd).error = some "SSH连接未建立" ∧
      (c.execute_command w cmd).return_code = -1) ∧
    (∀ out err code, c.connected = true → c.hasClient = true →
      w.execResult c.server_info.hostname cmd = .ok (out, err, code) →
      c.execute_command w cmd =
        { hostname := c.server_info.hostname, command := cmd, stdout := out,
          stderr := err, return_code := code,
          execution_time := w.elapsed c.server_info.hostname cmd, error := none }) ∧
    (∀ e, c.connected = true → c.hasClient = true →
      w.execResult c.server_info.hostname cmd = .error e →
      (c.execute_command w cmd).error = some e ∧
      (c.execute_command w cmd).return_code = -1) := by
  refine ⟨?_, ?_, ?_⟩
  · intro h
    rcases Bool.eq_false_or_eq_true c.connected with hc | hc
    · rcases Bool.eq_false_or_eq_true c.hasClient with hcl | hcl
      · exact absurd ⟨hc, hcl⟩ h
      · simp [SSHConnection.execute_command, hc, hcl]
    · simp [SSHConnection.execute_command, hc]
  · intro out err code hc hcl hexec
    simp [SSHConnection.execute_command, hc, hcl, hexec]
  · intro e hc hcl hexec
    simp [SSHConnection.execute_command, hc, hcl, hexec]

/-- Witness for C5 exercising all three branches: a successful nonzero-exit
command (error unset, code reported), a transport exception (error set), and
an unestablished connection. -/
theorem conn_execute_never_raises_witness :
    (cLive.execute_command wExec "ls").return_code = 7 ∧
    (cLive.execute_command wExec "ls").error = none ∧
    (cLive.execute_command wErr "ls").error = some "boom" ∧
    (cDead.execute_command wExec "ls").error = some "SSH连接未建立" := by
  have h1 := (conn_execute_never_raises wExec cLive "ls").2.1 "o" "e" 7 rfl rfl rfl
  have h2 := (conn_execute_never_raises wErr cLive "ls").2.2 "boom" rfl rfl rfl
  have h3 := (conn_execute_never_raises wExec cDead "ls").1 (by simp [cDead])
  exact ⟨by rw [h1], by rw [h1], h2.1, h3.1⟩

/-- Membership is preserved from `dremove m k` back to `m`. -/
theorem mem_dremove_subset {β : Type} {m : List (String × β)} {k : String}
    {p : String × β} (h : p ∈ dremove m k) : p ∈ m := by
  induction m with
  | nil => simp [dremove] at h
  | cons q rest ih =>
    obtain ⟨a, b⟩ := q
    by_cases hk : a = k
    · simp only [dremove, hk, if_pos] at h
      exact List.mem_cons_of_mem _ (ih h)
    · simp only [dremove, hk, if_false, List.mem_cons] at h
      rcases h with h | h
      · exact h ▸ List.mem_cons_self _ _
      · exact List.mem_cons_of_mem _ (ih h)

/-- The Python manager stores every record under its own hostname; this holds
of every state built through `add_server`/`remove_server`. -/
def keys_match (st : SSHManager) : Bool :=
  st.servers.all fun p => p.2.hostname == p.1

/-- Under `keys_match`, a looked-up record's hostname is its key. -/
theorem keys_match_lookup {st : SSHManager} {k : String} {si : ServerInfo}
    (hkm : keys_match st = true) (h : dlookup st.servers k = some si) :
    si.hostname = k := by
  have hmem := dlookup_mem h
  have := List.all_eq_true.mp hkm _ hmem
  simpa using this

/-- After `remove_server` on a registered hostname, the server map is exactly
the old map with that key deleted. -/
theorem remove_server_servers (st : SSHManager) (h : String) (si : ServerInfo)
    (hreg : dlookup st.servers h = some si) :
    (st.remove_server h).servers = dremove st.servers h := by
  simp [SSHManager.remove_server, hreg]

/-- C8: removing a registered hostname makes `get_server` report not-found,
removes the host's record from its former group's listing, and — when the
host was the sole member of that group — deletes the group from
`list_groups`. -/
theorem remove_server_spec (st : SSHManager) (h : String) (si : ServerInfo)
    (hkm : keys_match st = true)
    (hreg : dlookup st.servers h = some si) :
    (st.remove_server h).get_server h = none ∧
    (∀ r ∈ (st.remove_server h).list_servers (some si.group), r.hostname ≠ h) ∧
    (dlookup st.groups si.group = some [h] →
      si.group ∉ (st.remove_server h).list_groups) := by
  refine ⟨?_, ?_, ?_⟩
  · show dlookup (st.remove_server h).servers h = none
    rw [remove_server_servers st h si hreg]
    exact dlookup_dremove_self _ _
  · intro r hr hrh
    simp only [SSHManager.list_servers, List.mem_filterMap] at hr
    obtain ⟨hn, _, hlook⟩ := hr
    rw [remove_server_servers st h si hreg] at hlook
    have hmem : (hn, r) ∈ st.servers := mem_dremove_subset (dlookup_mem hlook)
    have hhn : r.hostname = hn := by
      have := List.all_eq_true.mp hkm _ hmem
      simpa using this
    rw [hrh] at hhn
    rw [← hhn] at hlook
    rw [dlookup_dremove_self] at hlook
    exact Option.noConfusion hlook
  · intro hgrp
    have hgroups : (st.remove_server h).groups = dremove st.groups si.group := by
      simp [SSHManager.remove_server, removeGroups, hreg, hgrp]
    simp only [SSHManager.list_groups, hgroups]
    exact mem_dkeys_dremove _ _

/-- Witness for C8: add one password-authenticated server, remove it, observe
not-found and the disappearance of its group. -/
theorem remove_server_spec_witness :
    keys_match (initManager.add_server siPw) = true ∧
    dlookup (initManager.add_server siPw).servers "h1" = some siPw ∧
    dlookup (initManager.add_server siPw).groups siPw.group = some ["h1"] ∧
    ((initManager.add_server siPw).remove_server "h1").get_server "h1" = none ∧
    siPw.group ∉ ((initManager.add_server siPw).remove_server "h1").list_groups := by
  have h := remove_server_spec (initManager.add_server siPw) "h1" siPw (by decide) (by decide)
  exact ⟨by decide, by decide, by decide, h.1, h.2.2 (by decide)⟩

/-! ### The group-index invariant (C3) -/

/-- A sequence of registry mutations. -/
inductive ClusterOp where
  | addS (si : ServerInfo)
  | removeS (hostname : String)

/-- Run one mutation. -/
def applyOp (st : SSHManager) : ClusterOp → SSHManager
  | .addS si => st.add_server si
  | .removeS h => st.remove_server h

/-- Run a sequence of mutations from a state. -/
def applyOps (st : SSHManager) (ops : List ClusterOp) : SSHManager :=
  ops.foldl applyOp st

/-- The invariant claimed by the spec: every hostname occurring anywhere in
the group index occurs in exactly one group's list, and that group is the
`group` field of the hostname's stored record. -/
def GroupIndexExact (st : SSHManager) : Prop :=
  ∀ g l h, dlookup st.groups g = some l → h ∈ l →
    ∃ si, dlookup st.servers h = some si ∧ si.group = g ∧
      ∀ g' l', dlookup st.groups g' = some l' → h ∈ l' → g' = g

/-- The invariant the code actually maintains: every registered hostname is
listed in the group named by its own record (with no exclusivity: stale
entries in other groups' lists are possible). -/
def RegisteredInOwnGroup (st : SSHManager) : Prop :=
  ∀ h si, dlookup st.servers h = some si →
    ∃ l, dlookup st.groups si.group = some l ∧ h ∈ l

/-- After `addGroups`, the record's own group lists its hostname, and every
hostname previously listed under that group is still listed. -/
theorem dlookup_addGroups_self (groups : List (String × List String)) (si : ServerInfo) :
    ∃ l, dlookup (addGroups groups si) si.group = some l ∧ si.hostname ∈ l ∧
      ∀ h, h ∈ (dlookup groups si.group).getD [] → h ∈ l := by
  rcases ho : dlookup groups si.group with _ | l0
  · have hc : dcontains groups si.group = false := by simp [dcontains, ho]
    refine ⟨[] ++ [si.hostname], ?_, by simp, ?_⟩
    · simp only [addGroups, hc, Bool.false_eq_true, if_false,
        dlookup_dinsert_self, Option.getD_some, List.not_mem_nil, if_false]
    · simp
  · have hc : dcontains groups si.group = true := by simp [dcontains, ho]
    simp only [addGroups, hc, if_true, ho, Option.getD_some]
    by_cases hm : si.hostname ∈ l0
    · simp only [hm, if_true]
      exact ⟨l0, ho, hm, fun h hh => hh⟩
    · simp only [hm, if_false]
      exact ⟨l0 ++ [si.hostname], dlookup_dinsert_self _ _ _,
        List.mem_append_right _ (by simp), fun h hh => List.mem_append_left _ hh⟩

/-- `addGroups` leaves every other group's list unchanged. -/
theorem dlookup_addGroups_ne (groups : List (String × List String)) (si : ServerInfo)
    (g : String) (hg : g ≠ si.group) :
    dlookup (addGroups groups si) g = dlookup groups g := by
  by_cases hc : dcontains groups si.group
  · simp only [addGroups, hc, if_true]
    split
    · rfl
    · exact dlookup_dinsert_ne _ _ _ _ hg
  · simp only [addGroups, hc, Bool.false_eq_true, if_false]
    split
    · exact dlookup_dinsert_ne _ _ _ _ hg
    · rw [dlookup_dinsert_ne _ _ _ _ hg, dlookup_dinsert_ne _ _ _ _ hg]

/-- `add_server` preserves the own-group invariant. -/
theorem add_server_preserves_riog (st : SSHManager) (si : ServerInfo)
    (hst : RegisteredInOwnGroup st) : RegisteredInOwnGroup (st.add_server si) := by
  intro h si' hlook
  have hsrv : (st.add_server si).servers = dinsert st.servers si.hostname si := rfl
  have hgrp : (st.add_server si).groups = addGroups st.groups si := rfl
  rw [hsrv] at hlook
  rw [hgrp]
  by_cases hh : h = si.hostname
  · subst hh
    rw [dlookup_dinsert_self] at hlook
    injection hlook with he
    subst he
    obtain ⟨l, hl, hmem, _⟩ := dlookup_addGroups_self st.groups si
    exact ⟨l, hl, hmem⟩
  · rw [dlookup_dinsert_ne _ _ _ _ hh] at hlook
    obtain ⟨l0, hl0, hm0⟩ := hst h si' hlook
    by_cases hg : si'.group = si.group
    · obtain ⟨l, hl, _, hsub⟩ := dlookup_addGroups_self st.groups si
      refine ⟨l, by rw [hg]; exact hl, hsub h ?_⟩
      rw [hg] at hl0
      rw [hl0]
      simpa using hm0
    · rw [dlookup_addGroups_ne _ _ _ hg]
      exact ⟨l0, hl0, hm0⟩

/-- `remove_server` preserves the own-group invariant. -/
theorem remove_server_preserves_riog (st : SSHManager) (h0 : String)
    (hst : RegisteredInOwnGroup st) : RegisteredInOwnGroup (st.remove_server h0) := by
  intro h si hlook
  rcases hr : dlookup st.servers h0 with _ | si0
  · have hid : st.remove_server h0 = st := by simp [SSHManager.remove_server, hr]
    rw [hid] at hlook ⊢
    exact hst h si hlook
  · have hsrv : (st.remove_server h0).servers = dremove st.servers h0 :=
      remove_server_servers st h0 si0 hr
    have hgrp : (st.remove_server h0).groups = removeGroups st.groups si0 h0 := by
      simp [SSHManager.remove_server, hr]
    rw [hsrv] at hlook
    have hne : h ≠ h0 := by
      intro he
      rw [he, dlookup_dremove_self] at hlook
      exact Option.noConfusion hlook
    rw [dlookup_dremove_ne _ _ _ hne] at hlook
    obtain ⟨l0, hl0, hm0⟩ := hst h si hlook
    rw [hgrp]
    by_cases hg : si.group = si0.group
    · have hl0' : dlookup st.groups si0.group = some l0 := by rw [← hg]; exact hl0
      have hmer : h ∈ l0.erase h0 := (List.mem_erase_of_ne hne).mpr hm0
      have hnil : l0.erase h0 ≠ [] := by
        intro hE
        rw [hE] at hmer
        exact absurd hmer (List.not_mem_nil h)
      simp only [removeGroups, hl0', if_neg hnil]
      exact ⟨l0.erase h0, by rw [hg]; exact dlookup_dinsert_self _ _ _, hmer⟩
    · rcases hlg : dlookup st.groups si0.group with _ | l
      · simp only [removeGroups, hlg]
        exact ⟨l0, hl0, hm0⟩
      · simp only [removeGroups, hlg]
        split
        · exact ⟨l0, by rw [dlookup_dremove_ne _ _ _ hg]; exact hl0, hm0⟩
        · exact ⟨l0, by rw [dlookup_dinsert_ne _ _ _ _ hg]; exact hl0, hm0⟩

/-- The empty manager satisfies the own-group invariant. -/
theorem riog_init : RegisteredInOwnGroup initManager := by
  intro h si hlook
  simp [initManager, dlookup] at hlook

/-- The own-group invariant is preserved along any mutation sequence. -/
theorem applyOps_riog_aux (ops : List ClusterOp) :
    ∀ st, RegisteredInOwnGroup st → RegisteredInOwnGroup (applyOps st ops) := by
  induction ops with
  | nil => exact fun st h => h
  | cons op rest ih =>
    intro st h
    cases op with
    | addS si => exact ih _ (add_server_preserves_riog st si h)
    | removeS hn => exact ih _ (remove_server_preserves_riog st hn h)

/-- A server first added under group `g1`. -/
def siG1 : ServerInfo :=
  { hostname := "a", username := "u", password := some "p", group := "g1" }

/-- The same hostname re-added under group `g2`. -/
def siG2 : ServerInfo :=
  { hostname := "a", username := "u", password := some "p", group := "g2" }

/-- C3 counterexample: adding hostname `a` under group `g1` and then re-adding
it under group `g2` leaves `a` in BOTH groups' lists — the exclusivity part of
the claimed invariant fails, because `add_server` never removes the hostname
from its old group's list. -/
theorem group_index_exact_fails :
    ¬ GroupIndexExact (applyOps initManager [.addS siG1, .addS siG2]) := by
  intro hinv
  obtain ⟨si, _, _, huni⟩ := hinv "g1" ["a"] "a" (by decide) (by decide)
  exact absurd (huni "g2" ["a"] (by decide) (by decide)) (by decide)

/-- C3 amended: after every sequence of `add_server`/`remove_server`
operations, every registered hostname appears in the group list named by its
own record's `group` field; but the index is not exclusive — re-adding an
existing hostname with a different group field leaves it listed in the old
group as well (see the counterexample). -/
theorem group_index_registered_in_own_group (ops : List ClusterOp) :
    RegisteredInOwnGroup (applyOps initManager ops) :=
  applyOps_riog_aux ops initManager riog_init

/-! ### Lock scope of the connect call (C4) -/

/-- In the three-event trace `[acquire, connectCall h, release]`, the connect
event sits at depth 1. -/
theorem trace_connect_depth (h : String) (i : Nat)
    (hi : isConnectCall (([PoolEvent.acquire, .connectCall h, .release]).getD i .release) = true) :
    lockDepth (([PoolEvent.acquire, .connectCall h, .release]).take i) = 1 := by
  match i with
  | 0 => simp [isConnectCall, List.getD] at hi
  | 1 => simp [lockDepth]
  | 2 => simp [isConnectCall, List.getD] at hi
  | n + 3 => simp [isConnectCall, List.getD] at hi

/-- The two-event trace `[acquire, release]` contains no connect event. -/
theorem trace_no_connect (i : Nat) :
    isConnectCall (([PoolEvent.acquire, .release]).getD i .release) = false := by
  match i with
  | 0 => simp [isConnectCall, List.getD]
  | 1 => simp [isConnectCall, List.getD]
  | n + 2 => simp [isConnectCall, List.getD]

/-- C4 counterexample: with one registered enabled server and an empty pool,
`_get_connection`'s event trace places the `connect()` call between the lock
acquire and release — the spec's `connectOutsideLock` property is false. -/
theorem connect_inside_lock_counterexample :
    getConnectionTrace (initManager.add_server siPw) wOk "h1" =
      [.acquire, .connectCall "h1", .release] ∧
    connectOutsideLock (getConnectionTrace (initManager.add_server siPw) wOk "h1") = false := by
  exact ⟨rfl, rfl⟩

/-- Every `_get_connection` trace is empty (unknown host), a bare
acquire/release pair, or acquire–connect–release. -/
theorem getConnectionTrace_shape (st : SSHManager) (w : World) (hostname : String) :
    getConnectionTrace st w hostname = [] ∨
    getConnectionTrace st w hostname = [.acquire, .release] ∨
    getConnectionTrace st w hostname = [.acquire, .connectCall hostname, .release] := by
  unfold getConnectionTrace
  rcases dlookup st.servers hostname with _ | si
  · left
    rfl
  · rcases dlookup st.connections hostname with _ | conn
    · by_cases he : si.enabled
      · right; right; simp [he]
      · right; left; simp [he]
    · by_cases ha : conn.is_alive w
      · right; left; simp [ha]
      · by_cases he : si.enabled
        · right; right; simp [ha, he]
        · right; left; simp [ha, he]

/-- C4 amended: the pool mutex IS held across the blocking handshake: whenever
the `_get_connection` event trace contains a `connect()` call, exactly one
lock is held at that point — the whole body of `_get_connection`, including
`connect`, runs inside the critical section. -/
theorem connect_always_inside_lock (st : SSHManager) (w : World) (hostname : String)
    (i : Nat)
    (hi : isConnectCall ((getConnectionTrace st w hostname).getD i .release) = true) :
    lockDepth ((getConnectionTrace st w hostname).take i) = 1 := by
  rcases getConnectionTrace_shape st w hostname with h | h | h <;> rw [h] at hi ⊢
  · simp [List.getD, isConnectCall] at hi
  · rw [trace_no_connect i] at hi
    exact Bool.noConfusion hi
  · exact trace_connect_depth hostname i hi

/-- Witness for C4's amended theorem: the concrete trace of the counterexample
state has its connect event at position 1, under one held lock. -/
theorem connect_always_inside_lock_witness :
    isConnectCall ((getConnectionTrace (initManager.add_server siPw) wOk "h1").getD 1 .release) = true ∧
    lockDepth ((getConnectionTrace (initManager.add_server siPw) wOk "h1").take 1) = 1 := by
  exact ⟨rfl, connect_always_inside_lock (initManager.add_server siPw) wOk "h1" 1 rfl⟩

/-! ### Unknown and disabled hosts (C6) -/

/-- `siPw` re-added with `enabled := false`. -/
def siPwD : ServerInfo := { siPw with enabled := false }

/-- State after adding `siPw`. -/
def stepState1 : SSHManager := initManager.add_server siPw

/-- State after one successful command execution (a live connection is now
pooled under `"h1"`). -/
def stepState2 : SSHManager := (stepState1.execute_command wOk "h1" "echo hi").2

/-- State after re-adding the record with `enabled := false`; the live pooled
connection survives. -/
def stepState3 : SSHManager := stepState2.add_server siPwD

/-- C6 counterexample: a disabled host that still has a live pooled connection
executes normally — the cached-connection check precedes the `enabled` check —
so `execute_command` returns exit status 0 with no error, not −1.  The state
is reached through the public API: add enabled, execute once, re-add
disabled, execute again. -/
theorem execute_disabled_with_cached_conn :
    dlookup stepState3.servers "h1" = some siPwD ∧
    siPwD.enabled = false ∧
    (stepState3.execute_command wOk "h1" "echo hi").1.return_code = 0 ∧
    (stepState3.execute_command wOk "h1" "echo hi").1.return_code ≠ -1 ∧
    (stepState3.execute_command wOk "h1" "echo hi").1.error = none := by
  exact ⟨rfl, rfl, rfl, by decide, rfl⟩

/-- `_get_connection` yields no connection when the host is unregistered or
disabled, provided no live pooled connection exists for it. -/
theorem getConnection_none (st : SSHManager) (w : World) (h : String)
    (hdis : ∀ si, dlookup st.servers h = some si → si.enabled = false)
    (hnc : ∀ conn, dlookup st.connections h = some conn → conn.is_alive w = false) :
    (st.getConnection w h).1 = none := by
  unfold SSHManager.getConnection
  rcases hs : dlookup st.servers h with _ | si
  · rfl
  · have he : si.enabled = false := hdis si hs
    rcases hcn : dlookup st.connections h with _ | conn
    · simp [tryCreate, newConnection, he]
    · have ha := hnc conn hcn
      simp [ha, tryCreate, newConnection, he]

/-- C6 amended: for a hostname that is unregistered, or registered-but-
disabled with no live pooled connection, `execute_command` never raises and
returns the synthetic CommandResult with `return_code = -1` and the non-empty
error "无法建立SSH连接".  (A disabled host that still holds a live pooled
connection is served from the pool instead — see the counterexample.) -/
theorem execute_unknown_or_disabled (st : SSHManager) (w : World) (h cmd : String)
    (hdis : ∀ si, dlookup st.servers h = some si → si.enabled = false)
    (hnc : ∀ conn, dlookup st.connections h = some conn → conn.is_alive w = false) :
    (st.execute_command w h cmd).1 = noConnResult h cmd ∧
    (noConnResult h cmd).return_code = -1 ∧
    (noConnResult h cmd).error = some "无法建立SSH连接" ∧
    "无法建立SSH连接" ≠ "" := by
  have hnone := getConnection_none st w h hdis hnc
  refine ⟨?_, rfl, rfl, by decide⟩
  unfold SSHManager.execute_command
  rcases hgc : st.getConnection w h with ⟨o, st2⟩
  have ho : o = none := by rw [hgc] at hnone; exact hnone
  subst ho
  rfl

/-- Witness for C6's amended theorem at an unregistered hostname. -/
theorem execute_unknown_or_disabled_witness :
    (initManager.execute_command wOk "x" "ls").1 = noConnResult "x" "ls" ∧
    (noConnResult "x" "ls").return_code = -1 := by
  have h := execute_unknown_or_disabled initManager wOk "x" "ls"
    (fun si hsi => by simp [initManager, dlookup] at hsi)
    (fun conn hc => by simp [initManager, dlookup] at hc)
  exact ⟨h.1, h.2.1⟩

/-! ### Parallel execution: framing and per-host independence (C1) -/

/-- `tryCreate` never touches the server registry. -/
theorem tryCreate_servers (st : SSHManager) (w : World) (h : String) (si : ServerInfo) :
    (tryCreate st w h si).2.servers = st.servers := by
  unfold tryCreate
  rcases newConnection w si with _ | c <;> rfl

/-- `tryCreate` never touches another hostname's pool entry. -/
theorem tryCreate_connections_frame (st : SSHManager) (w : World) (h : String)
    (si : ServerInfo) (h' : String) (hne : h' ≠ h) :
    dlookup (tryCreate st w h si).2.connections h' = dlookup st.connections h' := by
  unfold tryCreate
  rcases newConnection w si with _ | c
  · rfl
  · exact dlookup_dinsert_ne _ _ _ _ hne

/-- The connection `tryCreate` yields depends only on the record. -/
theorem tryCreate_fst (st : SSHManager) (w : World) (h : String) (si : ServerInfo) :
    (tryCreate st w h si).1 = newConnection w si := by
  unfold tryCreate
  rcases newConnection w si with _ | c <;> rfl

/-- `_get_connection` never touches the server registry. -/
theorem getConnection_servers_eq (st : SSHManager) (w : World) (h : String) :
    (st.getConnection w h).2.servers = st.servers := by
  unfold SSHManager.getConnection
  rcases dlookup st.servers h with _ | si
  · rfl
  · rcases dlookup st.connections h with _ | conn
    · exact tryCreate_servers _ _ _ _
    · by_cases ha : conn.is_alive w
      · simp [ha]
      · simp [ha, tryCreate_servers]

/-- `_get_connection` on one hostname never touches another hostname's pool
entry. -/
theorem getConnection_connections_frame (st : SSHManager) (w : World) (h h' : String)
    (hne : h' ≠ h) :
    dlookup (st.getConnection w h).2.connections h' = dlookup st.connections h' := by
  unfold SSHManager.getConnection
  rcases dlookup st.servers h with _ | si
  · rfl
  · rcases dlookup st.connections h with _ | conn
    · exact tryCreate_connections_frame _ _ _ _ _ hne
    · by_cases ha : conn.is_alive w
      · simp [ha]
      · simp only [ha, Bool.false_eq_true, if_false]
        rw [tryCreate_connections_frame _ _ _ _ _ hne]
        exact dlookup_dremove_ne _ _ _ hne

/-- The connection `_get_connection` yields depends only on the hostname's own
registry record and pool entry. -/
theorem getConnection_fst_congr (w : World) (h : String) (st1 st2 : SSHManager)
    (hs : dlookup st1.servers h = dlookup st2.servers h)
    (hc : dlookup st1.connections h = dlookup st2.connections h) :
    (st1.getConnection w h).1 = (st2.getConnection w h).1 := by
  unfold SSHManager.getConnection
  rw [hs]
  rcases dlookup st2.servers h with _ | si
  · rfl
  · rw [hc]
    rcases dlookup st2.connections h with _ | conn
    · rw [tryCreate_fst, tryCreate_fst]
    · by_cases ha : conn.is_alive w
      · simp [ha]
      · simp only [ha, Bool.false_eq_true, if_false]
        rw [tryCreate_fst, tryCreate_fst]

/-- `execute_command` never touches the server registry. -/
theorem execute_servers_eq (st : SSHManager) (w : World) (h cmd : String) :
    (st.execute_command w h cmd).2.servers = st.servers := by
  unfold SSHManager.execute_command
  have hse := getConnection_servers_eq st w h
  rcases hgc : st.getConnection w h with ⟨o, st2⟩
  rw [hgc] at hse
  cases o
  · exact hse
  · exact hse

/-- `execute_command` on one hostname never touches another hostname's pool
entry. -/
theorem execute_connections_frame (st : SSHManager) (w : World) (h cmd h' : String)
    (hne : h' ≠ h) :
    dlookup (st.execute_command w h cmd).2.connections h' = dlookup st.connections h' := by
  unfold SSHManager.execute_command
  have hfr := getConnection_connections_frame st w h h' hne
  rcases hgc : st.getConnection w h with ⟨o, st2⟩
  rw [hgc] at hfr
  cases o
  · exact hfr
  · exact hfr

/-- The result of `execute_command` depends only on the hostname's own
registry record and pool entry. -/
theorem execute_fst_congr (w : World) (h cmd : String) (st1 st2 : SSHManager)
    (hs : dlookup st1.servers h = dlookup st2.servers h)
    (hc : dlookup st1.connections h = dlookup st2.connections h) :
    (st1.execute_command w h cmd).1 = (st2.execute_command w h cmd).1 := by
  unfold SSHManager.execute_command
  have hfst := getConnection_fst_congr w h st1 st2 hs hc
  rcases hgc1 : st1.getConnection w h with ⟨o1, s1⟩
  rcases hgc2 : st2.getConnection w h with ⟨o2, s2⟩
  rw [hgc1, hgc2] at hfst
  cases o1 with
  | none =>
    cases o2 with
    | none => rfl
    | some c2 => exact Option.noConfusion hfst
  | some c1 =>
    cases o2 with
    | none => exact Option.noConfusion hfst
    | some c2 =>
      have hcc : c1 = c2 := Option.some.inj hfst
      show c1.execute_command w cmd = c2.execute_command w cmd
      rw [hcc]

/-- Folding the result-collection step over a duplicate-free selection: the
registry is untouched, unselected hostnames get no entry, and every selected
hostname's entry equals its solo execution from the initial state. -/
theorem parFold_spec (w : World) (cmd : String) (st0 : SSHManager) :
    ∀ (sel : List String) (acc : List (String × CommandResult)) (st : SSHManager),
      sel.Nodup →
      st.servers = st0.servers →
      (∀ h, h ∈ sel → dlookup st.connections h = dlookup st0.connections h) →
      ((sel.foldl (parStep w cmd) (acc, st)).2.servers = st0.servers ∧
       (∀ h, h ∉ sel → dlookup (sel.foldl (parStep w cmd) (acc, st)).1 h = dlookup acc h) ∧
       (∀ h, h ∈ sel →
         dlookup (sel.foldl (parStep w cmd) (acc, st)).1 h =
           some (st0.execute_command w h cmd).1)) := by
  intro sel
  induction sel with
  | nil =>
    intro acc st _ hsrv _
    exact ⟨hsrv, fun h _ => rfl, fun h hh => absurd hh (List.not_mem_nil h)⟩
  | cons hd tl ih =>
    intro acc st hnd hsrv hconn
    obtain ⟨hnd1, hnd2⟩ := List.nodup_cons.mp hnd
    have hres : (SSHManager.execute_command st w hd cmd).1 = (st0.execute_command w hd cmd).1 :=
      execute_fst_congr w hd cmd st st0 (by rw [hsrv]) (hconn hd (List.mem_cons_self _ _))
    have hsrv' : (SSHManager.execute_command st w hd cmd).2.servers = st0.servers := by
      rw [execute_servers_eq, hsrv]
    have hconn' : ∀ h, h ∈ tl →
        dlookup (SSHManager.execute_command st w hd cmd).2.connections h =
          dlookup st0.connections h := by
      intro h hh
      have hne : h ≠ hd := fun he => hnd1 (he ▸ hh)
      rw [execute_connections_frame st w hd cmd h hne]
      exact hconn h (List.mem_cons_of_mem _ hh)
    obtain ⟨ihs, ihnot, ihin⟩ :=
      ih (dinsert acc hd (SSHManager.execute_command st w hd cmd).1)
        (SSHManager.execute_command st w hd cmd).2 hnd2 hsrv' hconn'
    have hstep : (hd :: tl).foldl (parStep w cmd) (acc, st) =
        tl.foldl (parStep w cmd)
          (dinsert acc hd (SSHManager.execute_command st w hd cmd).1,
           (SSHManager.execute_command st w hd cmd).2) := rfl
    rw [hstep]
    refine ⟨ihs, ?_, ?_⟩
    · intro h hh
      have hh1 : h ≠ hd := fun he => hh (he ▸ List.mem_cons_self _ _)
      have hh2 : h ∉ tl := fun hm => hh (List.mem_cons_of_mem _ hm)
      rw [ihnot h hh2]
      exact dlookup_dinsert_ne _ _ _ _ hh1
    · intro h hh
      rcases List.mem_cons.mp hh with he | hm
      · subst he
        rw [ihnot h hnd1, dlookup_dinsert_self, hres]
      · exact ihin h hm

/-- C1 counterexample: a requested but unregistered hostname receives NO entry
in the result map of `execute_command_parallel` (line 375 silently skips it),
refuting the claim that the map holds exactly one CommandResult per requested
hostname. -/
theorem execute_parallel_missing_host :
    ("ghost" ∈ (["ghost"] : List String)) ∧
    (initManager.execute_command_parallel wOk ["ghost"] "ls").1 = [] ∧
    dlookup (initManager.execute_command_parallel wOk ["ghost"] "ls").1 "ghost" = none := by
  exact ⟨List.mem_singleton_self _, rfl, rfl⟩

/-- C1 amended: for every duplicate-free request list, the result map of
`execute_command_parallel` holds exactly one CommandResult per requested
hostname that is registered and enabled (unregistered or disabled hostnames
are silently omitted), and each such entry equals the hostname's solo
execution from the initial state — a connect or execution failure on one host
cannot remove or alter another host's result. -/
theorem execute_parallel_per_host (st : SSHManager) (w : World)
    (hostnames : List String) (cmd : String) (hnd : hostnames.Nodup) :
    (∀ h, h ∈ hostnames → selectable st h = true →
       dlookup (st.execute_command_parallel w hostnames cmd).1 h =
         some (st.execute_command w h cmd).1) ∧
    (∀ h, ¬ (h ∈ hostnames ∧ selectable st h = true) →
       dlookup (st.execute_command_parallel w hostnames cmd).1 h = none) := by
  have hsel : (hostnames.filter (selectable st)).Nodup := hnd.filter _
  obtain ⟨_, hnot, hin⟩ :=
    parFold_spec w cmd st (hostnames.filter (selectable st)) [] st hsel rfl (fun _ _ => rfl)
  constructor
  · intro h hh hs
    exact hin h (List.mem_filter.mpr ⟨hh, hs⟩)
  · intro h hh
    have hmem : h ∉ hostnames.filter (selectable st) := by
      intro hmem
      obtain ⟨h1, h2⟩ := List.mem_filter.mp hmem
      exact hh ⟨h1, h2⟩
    exact hnot h hmem

/-- Witness for C1's amended theorem: requesting a registered host and an
unknown host, the registered host's entry equals its solo execution and the
unknown host has no entry. -/
theorem execute_parallel_per_host_witness :
    (["h1", "ghost"] : List String).Nodup ∧
    dlookup (stepState1.execute_command_parallel wOk ["h1", "ghost"] "echo hi").1 "h1" =
      some (stepState1.execute_command wOk "h1" "echo hi").1 ∧
    dlookup (stepState1.execute_command_parallel wOk ["h1", "ghost"] "echo hi").1 "ghost" = none := by
  have h := execute_parallel_per_host stepState1 wOk ["h1", "ghost"] "echo hi" (by decide)
  exact ⟨by decide, h.1 "h1" (by decide) (by decide), h.2 "ghost" (by decide)⟩

end LinuxAgent
